import Mathlib

/-!
Shallow embedding of the vibehooks React hook collection, with proofs of the
specification claims about it.  Each namespace embeds one hook (or one shared
store) from the TypeScript source: pure logic becomes Lean functions, browser
state (localStorage, document.cookie, listener sets, timers) becomes explicit
state records, and the component/effect lifecycle becomes a step relation that
a trace of events folds over.
-/

/-! ## useToggle (packages/use-toggle/src/useToggle.ts)

`useToggle` keeps a boolean `status` initialised from `defaultValue`; its
`handleToggle` sets the state with the functional updater `prev => !prev`. -/

namespace UseToggle

/-- The functional updater `prev => !prev` passed to `setStatus`. -/
def handleToggle (prev : Bool) : Bool := !prev

/-- The `status` state after `n` invocations of `handleToggle`, starting from
`useState(defaultValue)`. -/
def statusAfter (defaultValue : Bool) : Nat → Bool
  | 0 => defaultValue
  | n + 1 => handleToggle (statusAfter defaultValue n)

end UseToggle

/-! ## useVibration (src/useVibration.ts)

`navigator.vibrate` is modelled as an oracle deciding whether the user agent
accepts a pattern, plus a call log recording the patterns actually passed to
the native API.  The hook computes `isSupported` from a capability probe and
guards both imperative functions on it. -/

namespace UseVibration

/-- `number | number[]`, the pattern type accepted by the Vibration API. -/
inductive VibrationPattern where
  | single (ms : Int)
  | seq (p : List Int)
deriving DecidableEq, Repr

/-- The browser side: a log of every pattern handed to `navigator.vibrate`. -/
structure NavigatorState where
  vibrateCalls : List VibrationPattern
deriving DecidableEq, Repr

/-- The native `navigator.vibrate` call: consults the user agent's acceptance
oracle and records the call. -/
def navVibrate (accept : VibrationPattern → Bool) (p : VibrationPattern)
    (nav : NavigatorState) : Bool × NavigatorState :=
  (accept p, { nav with vibrateCalls := nav.vibrateCalls ++ [p] })

/-- `vibrate(pattern)`: `if (!isSupported) return false; return navigator.vibrate(pattern)`. -/
def vibrate (isSupported : Bool) (accept : VibrationPattern → Bool)
    (p : VibrationPattern) (nav : NavigatorState) : Bool × NavigatorState :=
  if !isSupported then (false, nav) else navVibrate accept p nav

/-- `cancel()`: `if (!isSupported) return; navigator.vibrate(0)`. -/
def cancel (isSupported : Bool) (accept : VibrationPattern → Bool)
    (nav : NavigatorState) : NavigatorState :=
  if !isSupported then nav else (navVibrate accept (.single 0) nav).2

end UseVibration

/-! ## useLocalStorage (unnamed part_008)

`window.localStorage` is an association list from string keys to raw strings.
`JSON.stringify` / `JSON.parse` are abstract `encode` / `parse` parameters,
with `parse` partial (`none` models a thrown `SyntaxError`, caught by the
hook).  The configured `fallback` is `options?.fallback ?? null`, modelled as
an `Option T` that is `none` when unconfigured. -/

namespace UseLocalStorage

/-- The backing store of `window.localStorage`. -/
abbrev Storage := List (String × String)

/-- `localStorage.getItem(key)`. -/
def getItem (store : Storage) (key : String) : Option String :=
  (List.find? (fun p => p.1 = key) store).map (·.2)

/-- `localStorage.setItem(key, raw)`: replaces the existing entry or appends. -/
def setItem (store : Storage) (key : String) (raw : String) : Storage :=
  if List.any store (fun p => p.1 = key) then
    List.map (fun p => if p.1 = key then (key, raw) else p) store
  else store ++ [(key, raw)]

/-- `localStorage.removeItem(key)`. -/
def removeItem (store : Storage) (key : String) : Storage :=
  List.filter (fun p => ¬p.1 = key) store

/-- `get()`: fallback when unsupported; otherwise read, returning the fallback
when the key is absent or `JSON.parse` throws. -/
def get {T : Type} (isSupported : Bool) (fallback : Option T)
    (parse : String → Option T) (key : String) (store : Storage) : Option T :=
  if !isSupported then fallback
  else
    match getItem store key with
    | none => fallback
    | some raw =>
      match parse raw with
      | some v => some v
      | none => fallback

/-- `set(value)`: no-op when unsupported; otherwise store `JSON.stringify(value)`. -/
def set {T : Type} (isSupported : Bool) (encode : T → String) (key : String)
    (value : T) (store : Storage) : Storage :=
  if !isSupported then store else setItem store key (encode value)

/-- `remove()`: no-op when unsupported. -/
def remove (isSupported : Bool) (key : String) (store : Storage) : Storage :=
  if !isSupported then store else removeItem store key

/-- `clear()`: no-op when unsupported; otherwise empties the store. -/
def clear (isSupported : Bool) (store : Storage) : Storage :=
  if !isSupported then store else []

end UseLocalStorage

/-! ## useCookies (unnamed part_015, second file)

`document.cookie` reads as a string of `; `-separated `key=value` pairs.
`decodeURIComponent` is an abstract `decode` parameter. -/

namespace UseCookies

/-- The loop body of `get`: scan the `'; '`-split cookies, destructure each as
`const [key, ...rest] = cookie.split('=')` and return the decoded
`rest.join('=')` of the first cookie whose key matches. -/
def cookieLookup (decode : String → String) (name : String) :
    List String → Option String
  | [] => none
  | cookie :: restCookies =>
    match cookie.splitOn "=" with
    | [] => cookieLookup decode name restCookies
    | key :: vals =>
      if key = name then some (decode (String.intercalate "=" vals))
      else cookieLookup decode name restCookies

/-- `get(name)`: `null` when unsupported, else the first matching cookie. -/
def get (isSupported : Bool) (decode : String → String) (cookieStr : String)
    (name : String) : Option String :=
  if !isSupported then none
  else cookieLookup decode name (cookieStr.splitOn "; ")

/-- JS object property assignment `acc[key] = v` on the accumulator record. -/
def assocSet (acc : List (String × String)) (k v : String) :
    List (String × String) :=
  if List.any acc (fun p => p.1 = k) then
    List.map (fun p => if p.1 = k then (k, v) else p) acc
  else acc ++ [(k, v)]

/-- `getAll()`: `{}` when unsupported, else split, `filter(Boolean)`, and
reduce into a record, skipping entries with an empty key. -/
def getAll (isSupported : Bool) (decode : String → String)
    (cookieStr : String) : List (String × String) :=
  if !isSupported then []
  else
    List.foldl
      (fun acc cookie =>
        match cookie.splitOn "=" with
        | [] => acc
        | key :: vals =>
          if key = "" then acc
          else assocSet acc key (decode (String.intercalate "=" vals)))
      []
      (List.filter (fun c => ¬c = "") (cookieStr.splitOn "; "))

end UseCookies

/-! ## useShoppingCart (src/useShoppingCart.ts)

Items are an arbitrary type `T`; the user-supplied extractor functions give
keys, prices, quantities, taxes and discounts.  JS numbers are modelled as
integers.  `getItemTax` / `getItemDiscount` are optional, as in the source. -/

namespace UseShoppingCart

/-- The `UseShoppingCartOptions<T>` record of extractor functions. -/
structure CartOptions (T K : Type) where
  getItemKey : T → K
  getItemPrice : T → Int
  getItemQuantity : T → Int
  getItemTax : Option (T → Int)
  getItemDiscount : Option (T → Int)

/-- One entry of `getDetails()` (`ShoppingCartItemDetail`). -/
structure ItemDetail (K : Type) where
  key : K
  quantity : Int
  unitPrice : Int
  subtotal : Int
  tax : Int
  discount : Int
  total : Int
deriving DecidableEq, Repr

variable {T K : Type}

/-- `getSubtotal()`: `items.reduce((acc, item) => acc + price * quantity, 0)`. -/
def getSubtotal (o : CartOptions T K) (items : List T) : Int :=
  List.foldl (fun acc item => acc + o.getItemPrice item * o.getItemQuantity item) 0 items

/-- `getTotalTax()`: the tax-weighted reduce when `getItemTax` is given, else 0. -/
def getTotalTax (o : CartOptions T K) (items : List T) : Int :=
  match o.getItemTax with
  | some f => List.foldl (fun acc item => acc + f item * o.getItemQuantity item) 0 items
  | none => 0

/-- `getTotalDiscount()`: the discount-weighted reduce when `getItemDiscount`
is given, else 0. -/
def getTotalDiscount (o : CartOptions T K) (items : List T) : Int :=
  match o.getItemDiscount with
  | some f => List.foldl (fun acc item => acc + f item * o.getItemQuantity item) 0 items
  | none => 0

/-- `getTotal()` as written in the source:
`getSubtotal() + getTotalTax() + getTotalDiscount()`. -/
def getTotal (o : CartOptions T K) (items : List T) : Int :=
  getSubtotal o items + getTotalTax o items + getTotalDiscount o items

/-- The body of the `getDetails()` loop for one item, acting on the insertion
ordered map (modelled as a list of details in insertion order). -/
def detailsStep [DecidableEq K] (o : CartOptions T K) (m : List (ItemDetail K))
    (item : T) : List (ItemDetail K) :=
  let key := o.getItemKey item
  let quantity := o.getItemQuantity item
  let unitPrice := o.getItemPrice item
  let tax := match o.getItemTax with | some f => f item | none => 0
  let discount := match o.getItemDiscount with | some f => f item | none => 0
  if List.any m (fun e => e.key = key) then
    List.map
      (fun e =>
        if e.key = key then
          { e with
            quantity := e.quantity + quantity
            subtotal := e.subtotal + quantity * unitPrice
            tax := e.tax + tax * quantity
            discount := e.discount + discount * quantity
            total := e.total + (quantity * unitPrice + tax * quantity - discount * quantity) }
        else e)
      m
  else
    m ++ [{ key := key, quantity := quantity, unitPrice := unitPrice
            subtotal := quantity * unitPrice
            tax := tax * quantity
            discount := discount * quantity
            total := quantity * unitPrice + tax * quantity - discount * quantity }]

/-- `getDetails()`: fold the per-item step over the cart, starting from the
empty map. -/
def getDetails [DecidableEq K] (o : CartOptions T K) (items : List T) :
    List (ItemDetail K) :=
  List.foldl (detailsStep o) [] items

/-- The sum of the `total` fields of the `getDetails()` entries. -/
def detailsTotalSum [DecidableEq K] (o : CartOptions T K) (items : List T) : Int :=
  List.foldl (fun acc d => acc + d.total) 0 (getDetails o items)

/-- A concrete cart configuration: key is the first component, unit price the
second, quantity the third; no tax extractor; constant discount 2 per unit. -/
def sampleOptions : CartOptions (Nat × Int × Int) Nat where
  getItemKey := fun i => i.1
  getItemPrice := fun i => i.2.1
  getItemQuantity := fun i => i.2.2
  getItemTax := none
  getItemDiscount := some (fun _ => 2)

/-- A one-item cart: item 1, unit price 10, quantity 1. -/
def sampleItems : List (Nat × Int × Int) := [(1, 10, 1)]

end UseShoppingCart

/-! ## usePreferredTheme stores (src/usePreferredTheme.ts)

The module-level `Set<Listener>` (shared by the system and user theme stores)
is a list of listener ids; iterating it with `forEach` appends each id to a
ghost call log.  Browser listener registrations (`matchMedia('(prefers-color-scheme: dark)')`
`change` listener, `window` `storage` listener) are modelled as counters of
currently attached handlers.  All operations are taken on the client path
(`typeof window !== 'undefined'`). -/

namespace PreferredTheme

structure StoreState where
  /-- The module-level `listeners` set (ids, insertion ordered, no duplicates). -/
  listeners : List Nat
  /-- Handlers currently attached to the media query list's `change` event. -/
  mediaChangeListeners : Nat
  /-- Handlers currently attached to `window`'s `storage` event. -/
  storageListeners : Nat
  /-- `localStorage['preferred-theme']`. -/
  storageValue : Option String
  /-- Ghost log of listener invocations. -/
  callLog : List Nat
deriving DecidableEq, Repr

/-- `emit()`: `listeners.forEach(listener => listener())`. -/
def emit (s : StoreState) : StoreState :=
  { s with callLog := s.callLog ++ s.listeners }

/-- `Set.prototype.add`: append unless already present. -/
def setAdd (l : List Nat) (id : Nat) : List Nat :=
  if id ∈ l then l else l ++ [id]

/-- `systemThemeStore.suscribe(listener)` on the client: add to the set and
attach a `change` handler on the media query list. -/
def systemSuscribe (id : Nat) (s : StoreState) : StoreState :=
  { s with
    listeners := setAdd s.listeners id
    mediaChangeListeners := s.mediaChangeListeners + 1 }

/-- The cleanup returned by `systemThemeStore.suscribe` on the client: it only
deletes the listener from the set (the media `change` handler is not removed). -/
def systemCleanup (id : Nat) (s : StoreState) : StoreState :=
  { s with listeners := List.filter (fun l => ¬l = id) s.listeners }

/-- `userThemeStore.suscribe(listener)` on the client: add to the set and
attach a `storage` handler on `window`. -/
def userSuscribe (id : Nat) (s : StoreState) : StoreState :=
  { s with
    listeners := setAdd s.listeners id
    storageListeners := s.storageListeners + 1 }

/-- The cleanup returned by `userThemeStore.suscribe`: delete from the set and
remove the `storage` handler. -/
def userCleanup (id : Nat) (s : StoreState) : StoreState :=
  { s with
    listeners := List.filter (fun l => ¬l = id) s.listeners
    storageListeners := s.storageListeners - 1 }

/-- `userThemeStore.setTheme(theme)` on the client: write or remove
`localStorage['preferred-theme']`, then `emit()`. -/
def setTheme (theme : Option String) (s : StoreState) : StoreState :=
  emit { s with storageValue := theme }

/-- The media query list's `change` handler `() => emit()` firing. -/
def mediaChangeEvent (s : StoreState) : StoreState :=
  emit s

/-- The `storage` handler firing: `if (event.key === storageKey) emit()`. -/
def storageEvent (key : String) (s : StoreState) : StoreState :=
  if key = "preferred-theme" then emit s else s

end PreferredTheme

/-! ## usePreferredLanguage stores (unnamed part_015, first file)

Same shape as the theme stores; `systemLanguageStore` attaches a
`languagechange` handler on `window` and, unlike the theme store, removes it
in its cleanup. -/

namespace PreferredLanguage

structure StoreState where
  listeners : List Nat
  /-- Handlers currently attached to `window`'s `languagechange` event. -/
  languageChangeListeners : Nat
  /-- Handlers currently attached to `window`'s `storage` event. -/
  storageListeners : Nat
  /-- `localStorage['preferred-language']`. -/
  storageValue : Option String
  callLog : List Nat
deriving DecidableEq, Repr

/-- `emit()`: `listeners.forEach(listener => listener())`. -/
def emit (s : StoreState) : StoreState :=
  { s with callLog := s.callLog ++ s.listeners }

/-- `systemLanguageStore.suscribe(listener)` on the client. -/
def systemSuscribe (id : Nat) (s : StoreState) : StoreState :=
  { s with
    listeners := PreferredTheme.setAdd s.listeners id
    languageChangeListeners := s.languageChangeListeners + 1 }

/-- The cleanup returned by `systemLanguageStore.suscribe` on the client:
delete from the set and remove the `languagechange` handler. -/
def systemCleanup (id : Nat) (s : StoreState) : StoreState :=
  { s with
    listeners := List.filter (fun l => ¬l = id) s.listeners
    languageChangeListeners := s.languageChangeListeners - 1 }

/-- `userLanguageStore.setLanguage(language)` on the client: write
`localStorage['preferred-language']`, then `emit()`. -/
def setLanguage (language : String) (s : StoreState) : StoreState :=
  emit { s with storageValue := some language }

/-- The `languagechange` handler (`emit` itself) firing. -/
def languageChangeEvent (s : StoreState) : StoreState :=
  emit s

/-- The `storage` handler firing: `if (event.key === storageKey) emit()`. -/
def storageEvent (key : String) (s : StoreState) : StoreState :=
  if key = "preferred-language" then emit s else s

end PreferredLanguage

/-! ## useIntervalSafe (src/useIntervalSafe.ts)

State machine over the hook's state: `timer` models
`intervalRef.current !== null`, `isActive` and `executions` the two
`useState`s, and `invocations` is a ghost counter of callback invocations
since the execution counter was last reset (it is reset exactly where the
code resets `executions`).  Events are the imperative `start`, `cancel`,
`reset` calls and the firing of one scheduled interval tick. -/

namespace UseIntervalSafe

/-- The options the `start` closure captures: `delay` (`number | null`,
`undefined` behaves as `null`), `executeImmediately`, `maxExecutions`. -/
structure IntervalConfig where
  delay : Option Int
  executeImmediately : Bool
  maxExecutions : Option Nat
deriving DecidableEq, Repr

structure IntervalState where
  /-- `intervalRef.current !== null`. -/
  timer : Bool
  isActive : Bool
  executions : Nat
  /-- Ghost: callback invocations since `executions` was last reset. -/
  invocations : Nat
deriving DecidableEq, Repr

/-- `cancel()`: clear the interval and set `isActive` false, only when an
interval is running. -/
def cancel (s : IntervalState) : IntervalState :=
  if s.timer then { s with timer := false, isActive := false } else s

/-- `start()`: cancel, bail out on a null delay, run the immediate execution
if configured (bailing out before starting the interval when
`maxExecutions === 1`), then activate the interval. -/
def start (cfg : IntervalConfig) (s : IntervalState) : IntervalState :=
  let s0 := cancel s
  match cfg.delay with
  | none => s0
  | some _ =>
    if cfg.executeImmediately then
      let s1 := { s0 with executions := 1, invocations := 1 }
      if cfg.maxExecutions = some 1 then s1
      else { s1 with isActive := true, timer := true }
    else
      let s1 := { s0 with executions := 0, invocations := 0 }
      { s1 with isActive := true, timer := true }

/-- One firing of the scheduled interval callback: increment the count; at or
beyond `maxExecutions` cancel without invoking the callback, otherwise invoke
it.  Fires only while an interval is scheduled. -/
def tickStep (cfg : IntervalConfig) (s : IntervalState) : IntervalState :=
  if !s.timer then s
  else
    let newCount := s.executions + 1
    match cfg.maxExecutions with
    | some m =>
      if m ≤ newCount then { cancel s with executions := newCount }
      else { s with executions := newCount, invocations := s.invocations + 1 }
    | none => { s with executions := newCount, invocations := s.invocations + 1 }

/-- `reset()`: `cancel(); setExecutions(0); start();` (the ghost invocation
counter is reset together with `executions`). -/
def resetStep (cfg : IntervalConfig) (s : IntervalState) : IntervalState :=
  start cfg { cancel s with executions := 0, invocations := 0 }

inductive IntervalEvent where
  | start
  | tick
  | cancel
  | reset
deriving DecidableEq, Repr

def step (cfg : IntervalConfig) (s : IntervalState) : IntervalEvent → IntervalState
  | .start => start cfg s
  | .tick => tickStep cfg s
  | .cancel => cancel s
  | .reset => resetStep cfg s

/-- The state at mount: no interval, inactive, zero counts. -/
def initState : IntervalState :=
  { timer := false, isActive := false, executions := 0, invocations := 0 }

/-- The state reached from mount by a sequence of events. -/
def run (cfg : IntervalConfig) (events : List IntervalEvent) : IntervalState :=
  List.foldl (step cfg) initState events

/-- The safety property claimed for a configured execution limit `m`. -/
def Inv (m : Nat) (s : IntervalState) : Prop :=
  s.invocations ≤ s.executions ∧ s.executions ≤ m ∧
    (s.timer = true → s.executions < m) ∧ s.timer = s.isActive

instance (m : Nat) (s : IntervalState) : Decidable (Inv m s) := by
  unfold Inv; infer_instance

end UseIntervalSafe

/-! ## useDebouncedState (unnamed part_004)

State: the immediate `value`, the `debouncedValue`, the single pending
timeout (`timeoutRef`) as an optional pair of absolute fire time and the
value the effect closure captured, and the time of the last change to the
immediate value.  `setValue` re-renders, so the effect clears the pending
timeout and schedules `setDebouncedValue(value)` `delay` ms later; a timeout
can fire only at its scheduled time and only while still pending. -/

namespace UseDebouncedState

structure DebState (T : Type) where
  value : T
  debouncedValue : T
  /-- `timeoutRef.current`: scheduled fire time and the captured value. -/
  pending : Option (Int × T)
  /-- Time of the last change to the immediate value (mount time initially). -/
  lastSet : Int

inductive DebEvent (T : Type) where
  | setValue (t : Int) (v : T)
  | fire (t : Int)

/-- One step: `setValue` updates the immediate value and (through the effect
on `[value, delay]`) replaces the pending timeout with one due `delay` later;
`fire` delivers the pending timeout at its scheduled time. -/
def step {T : Type} (delay : Int) (s : DebState T) : DebEvent T → DebState T
  | .setValue t v =>
    { s with value := v, pending := some (t + delay, v), lastSet := t }
  | .fire t =>
    match s.pending with
    | some (tf, v) =>
      if t = tf then { s with debouncedValue := v, pending := none } else s
    | none => s

/-- Mount at time `t0`: both values are `initialValue`, and the mount effect
schedules a first timeout for `t0 + delay`. -/
def initState {T : Type} (delay : Int) (initialValue : T) (t0 : Int) : DebState T :=
  { value := initialValue
    debouncedValue := initialValue
    pending := some (t0 + delay, initialValue)
    lastSet := t0 }

def run {T : Type} (delay : Int) (initialValue : T) (t0 : Int)
    (events : List (DebEvent T)) : DebState T :=
  List.foldl (step delay) (initState delay initialValue t0) events

end UseDebouncedState

/-! ## useCountDown (unnamed part_002)

State: `count`, `completedRef`, whether an interval is scheduled, and a ghost
count of `onComplete` invocations.  Events carry an absolute time: `tick` is
one firing of the scheduled interval callback; `rerun` is one run of the
effect body (`completedRef.current = false; clearTimer(); tick();` then
`setInterval`), which is also how the effect first runs on mount. -/

namespace UseCountDown

structure CDState where
  count : Int
  completed : Bool
  timer : Bool
  /-- Ghost: number of `onComplete` invocations. -/
  fired : Nat
deriving DecidableEq, Repr

/-- `Math.max(endTimeRef.current - Date.now(), 0)`. -/
def rem (endTime t : Int) : Int := max (endTime - t) 0

/-- The body of `tick` at time `t`: publish the remaining time, and on first
reaching zero mark completion, clear the timer, and invoke `onComplete`. -/
def tickCore (endTime t : Int) (s : CDState) : CDState :=
  let remaining := rem endTime t
  let s1 := { s with count := remaining }
  if remaining = 0 ∧ s.completed = false then
    { s1 with completed := true, timer := false, fired := s.fired + 1 }
  else s1

inductive CDEvent where
  | tick (t : Int)
  | rerun (t : Int)
deriving DecidableEq, Repr

/-- The time an event occurs at. -/
def evTime : CDEvent → Int
  | .tick t => t
  | .rerun t => t

/-- One step: a scheduled tick fires only while an interval is running; an
effect re-run resets `completedRef`, runs `tick` inline, and (re)starts the
interval unconditionally. -/
def step (endTime : Int) (s : CDState) : CDEvent → CDState
  | .tick t => if s.timer then tickCore endTime t s else s
  | .rerun t => { tickCore endTime t { s with completed := false } with timer := true }

/-- The state produced by the `useState` initialisers at first render, time
`t0`, before the mount effect runs. -/
def initState (endTime t0 : Int) : CDState :=
  { count := rem endTime t0, completed := false, timer := false, fired := 0 }

/-- The state after a sequence of events from first render at `t0`. -/
def run (endTime t0 : Int) (events : List CDEvent) : CDState :=
  List.foldl (step endTime) (initState endTime t0) events

/-- The successive states after each event of a trace. -/
def statesAfter (endTime : Int) (s : CDState) : List CDEvent → List CDState
  | [] => []
  | e :: rest => step endTime s e :: statesAfter endTime (step endTime s e) rest

/-- The `count` values along a run: initial state then after each event. -/
def countTrace (endTime t0 : Int) (events : List CDEvent) : List Int :=
  (initState endTime t0).count ::
    List.map CDState.count (statesAfter endTime (initState endTime t0) events)

end UseCountDown

namespace UseCountDown

/-- Before completion: no `onComplete` yet, not marked complete, interval
running. -/
def PhaseA (s : CDState) : Prop :=
  s.fired = 0 ∧ s.completed = false ∧ s.timer = true

/-- After completion: `onComplete` ran exactly once, marked complete, interval
cleared, `count` at zero. -/
def PhaseB (s : CDState) : Prop :=
  s.fired = 1 ∧ s.completed = true ∧ s.timer = false ∧ s.count = 0

end UseCountDown

namespace UseDebouncedState

/-- The pending timeout, when present, is due exactly `delay` after the last
change to the immediate value and carries the current immediate value. -/
def DebInv {T : Type} (delay : Int) (s : DebState T) : Prop :=
  ∀ tf v, s.pending = some (tf, v) → tf = s.lastSet + delay ∧ v = s.value

end UseDebouncedState

/-! ## Theorems -/

/-- C7: `useToggle` starts at `defaultValue` and `handleToggle` negates the
state on each invocation: after `n` invocations the status is `defaultValue`
for even `n` and its negation for odd `n`. -/
theorem useToggle_status_alternates (defaultValue : Bool) (n : Nat) :
    UseToggle.statusAfter defaultValue 0 = defaultValue ∧
    UseToggle.statusAfter defaultValue (n + 1) = !UseToggle.statusAfter defaultValue n ∧
    UseToggle.statusAfter defaultValue n =
      (if n % 2 = 0 then defaultValue else !defaultValue) := by
  refine ⟨rfl, rfl, ?_⟩
  induction n with
  | zero => simp [UseToggle.statusAfter]
  | succ k ih =>
    rcases Nat.even_or_odd k with hk | hk
    · have h2 : k % 2 = 0 := Nat.even_iff.mp hk
      have h3 : (k + 1) % 2 = 1 := by omega
      simp [UseToggle.statusAfter, UseToggle.handleToggle, ih, h2, h3]
    · have h2 : k % 2 = 1 := Nat.odd_iff.mp hk
      have h3 : (k + 1) % 2 = 0 := by omega
      simp [UseToggle.statusAfter, UseToggle.handleToggle, ih, h2, h3]

/-- C1: with the probed capability absent (`isSupported = false`), every
imperative function and getter returns its documented safe default and leaves
the environment untouched, never reaching the native API: `vibrate` returns
`false`, `cancel` does nothing, `useLocalStorage.get` returns the fallback and
`set`/`remove`/`clear` do nothing, `useCookies.get` returns `null` and
`getAll` returns the empty record. -/
theorem capability_absent_safe_defaults :
    ∀ (accept : UseVibration.VibrationPattern → Bool)
      (p : UseVibration.VibrationPattern) (nav : UseVibration.NavigatorState)
      {T : Type} (fallback : Option T) (parse : String → Option T)
      (encode : T → String) (key : String) (store : UseLocalStorage.Storage)
      (v : T) (decode : String → String) (cookieStr name : String),
      UseVibration.vibrate false accept p nav = (false, nav) ∧
      UseVibration.cancel false accept nav = nav ∧
      UseLocalStorage.get false fallback parse key store = fallback ∧
      UseLocalStorage.set false encode key v store = store ∧
      UseLocalStorage.remove false key store = store ∧
      UseLocalStorage.clear false store = store ∧
      UseCookies.get false decode cookieStr name = none ∧
      UseCookies.getAll false decode cookieStr = [] := by
  intros
  exact ⟨rfl, rfl, rfl, rfl, rfl, rfl, rfl, rfl⟩

/-- C5: `useLocalStorage.get` returns the configured fallback (which is `null`
when unconfigured, here `fallback : Option T`) both when the key is absent
from the store and when the stored string fails to parse. -/
theorem localStorage_get_fallback_on_miss {T : Type} (isSupported : Bool)
    (fallback : Option T) (parse : String → Option T) (key : String)
    (store : UseLocalStorage.Storage) :
    (UseLocalStorage.getItem store key = none →
      UseLocalStorage.get isSupported fallback parse key store = fallback) ∧
    (∀ raw, UseLocalStorage.getItem store key = some raw → parse raw = none →
      UseLocalStorage.get isSupported fallback parse key store = fallback) := by
  constructor
  · intro h
    cases isSupported with
    | false => rfl
    | true => simp [UseLocalStorage.get, h]
  · intro raw hraw hparse
    cases isSupported with
    | false => rfl
    | true => simp [UseLocalStorage.get, hraw, hparse]

/-- Witness for C5 at concrete inputs: an empty store misses the key, and an
unparseable stored string also yields the fallback. -/
theorem localStorage_get_fallback_on_miss_witness :
    UseLocalStorage.get true (some 3) (fun _ => (none : Option Nat)) "k" [] = some 3 ∧
    UseLocalStorage.get true (some 3) (fun _ => (none : Option Nat)) "k" [("k", "x")] =
      some 3 :=
  ⟨(localStorage_get_fallback_on_miss true (some 3) (fun _ => none) "k" []).1 rfl,
   (localStorage_get_fallback_on_miss true (some 3) (fun _ => none) "k"
      [("k", "x")]).2 "x" rfl rfl⟩

namespace UseLocalStorage

theorem getItem_map_replace (key raw : String) :
    ∀ store : Storage, List.any store (fun p => p.1 = key) = true →
      getItem (List.map (fun p => if p.1 = key then (key, raw) else p) store) key =
        some raw := by
  intro store h
  induction store with
  | nil => simp at h
  | cons hd tl ih =>
    by_cases hk : hd.1 = key
    · simp [getItem, hk]
    · have htl : List.any tl (fun p => p.1 = key) = true := by
        simp [hk] at h
        simpa using h
      simpa [getItem, hk] using ih htl

theorem getItem_append_single (key raw : String) :
    ∀ store : Storage, List.any store (fun p => p.1 = key) = false →
      getItem (store ++ [(key, raw)]) key = some raw := by
  intro store h
  induction store with
  | nil => simp [getItem]
  | cons hd tl ih =>
    simp only [List.any_cons, Bool.or_eq_false_iff] at h
    have hk : ¬hd.1 = key := by simpa using h.1
    simpa [getItem, hk] using ih h.2

theorem getItem_setItem (store : Storage) (key raw : String) :
    getItem (setItem store key raw) key = some raw := by
  unfold setItem
  by_cases h : List.any store (fun p => p.1 = key) = true
  · simpa [h] using getItem_map_replace key raw store h
  · have h2 : List.any store (fun p => p.1 = key) = false := by
      cases hx : List.any store (fun p => p.1 = key) with
      | false => rfl
      | true => exact absurd hx h
    simpa [h2] using getItem_append_single key raw store h2

end UseLocalStorage

/-- C9: when localStorage is supported, storing a value whose serialization
round-trips through `parse` and reading it back returns the value itself, not
the fallback. -/
theorem localStorage_set_then_get {T : Type} (encode : T → String)
    (parse : String → Option T) (fallback : Option T) (key : String) (v : T)
    (store : UseLocalStorage.Storage) (h : parse (encode v) = some v) :
    UseLocalStorage.get true fallback parse key
      (UseLocalStorage.set true encode key v store) = some v := by
  have hset : UseLocalStorage.set true encode key v store =
      UseLocalStorage.setItem store key (encode v) := rfl
  have hg := UseLocalStorage.getItem_setItem store key (encode v)
  simp [UseLocalStorage.get, hset, hg, h]

/-- Witness for C9 with the identity serialization on strings. -/
theorem localStorage_set_then_get_witness :
    (some "a" : Option String) = some "a" ∧
    UseLocalStorage.get true none some "k"
      (UseLocalStorage.set true id "k" "a" []) = some "a" :=
  ⟨rfl, localStorage_set_then_get id some none "k" "a" [] rfl⟩

/-- C3: evaluation at the failing input.  On a one-item cart with unit price
10, quantity 1 and discount 2, `getTotal()` yields 12 (it adds the discount:
`getSubtotal() + getTotalTax() + getTotalDiscount()`), while the single
`getDetails()` entry's `total` is 8 (`subtotal + tax - discount`), so the
aggregate total and the per-key detail totals are not the same quantity. -/
theorem shoppingCart_getTotal_details_mismatch :
    UseShoppingCart.getTotal UseShoppingCart.sampleOptions UseShoppingCart.sampleItems = 12 ∧
    UseShoppingCart.detailsTotalSum UseShoppingCart.sampleOptions UseShoppingCart.sampleItems = 8 ∧
    ¬(UseShoppingCart.getTotal UseShoppingCart.sampleOptions UseShoppingCart.sampleItems =
      UseShoppingCart.detailsTotalSum UseShoppingCart.sampleOptions
        UseShoppingCart.sampleItems) := by
  refine ⟨rfl, rfl, ?_⟩
  decide

/-- C6: evaluation at the failing input.  Subscribing one listener to the
system theme store in a window environment and then running the returned
cleanup removes the listener from the set but leaves the matchMedia `change`
handler attached (1 remains, not 0); the system language store's cleanup does
remove its `languagechange` handler. -/
theorem systemTheme_cleanup_leaks_media_listener :
    (PreferredTheme.systemCleanup 0 (PreferredTheme.systemSuscribe 0
      { listeners := [], mediaChangeListeners := 0, storageListeners := 0,
        storageValue := none, callLog := [] })).listeners = [] ∧
    ¬((PreferredTheme.systemCleanup 0 (PreferredTheme.systemSuscribe 0
      { listeners := [], mediaChangeListeners := 0, storageListeners := 0,
        storageValue := none, callLog := [] })).mediaChangeListeners = 0) ∧
    (PreferredLanguage.systemCleanup 0 (PreferredLanguage.systemSuscribe 0
      { listeners := [], languageChangeListeners := 0, storageListeners := 0,
        storageValue := none, callLog := [] })).languageChangeListeners = 0 := by
  refine ⟨?_, ?_, ?_⟩ <;> decide

/-- C10: every state change published through the theme or language store
(`setTheme` / `setLanguage`, a mirrored matchMedia `change` event or
`languagechange` event, or a mirrored `storage` event for the store's key)
invokes every listener currently in the store's listener set. -/
theorem stores_invoke_every_listener (s : PreferredTheme.StoreState)
    (sl : PreferredLanguage.StoreState) (id : Nat) (theme : Option String)
    (lang : String) :
    (id ∈ s.listeners → id ∈ (PreferredTheme.setTheme theme s).callLog) ∧
    (id ∈ s.listeners → id ∈ (PreferredTheme.mediaChangeEvent s).callLog) ∧
    (id ∈ s.listeners → id ∈ (PreferredTheme.storageEvent "preferred-theme" s).callLog) ∧
    (id ∈ sl.listeners → id ∈ (PreferredLanguage.setLanguage lang sl).callLog) ∧
    (id ∈ sl.listeners → id ∈ (PreferredLanguage.languageChangeEvent sl).callLog) ∧
    (id ∈ sl.listeners →
      id ∈ (PreferredLanguage.storageEvent "preferred-language" sl).callLog) := by
  refine ⟨fun h => ?_, fun h => ?_, fun h => ?_, fun h => ?_, fun h => ?_, fun h => ?_⟩ <;>
    simp [PreferredTheme.setTheme, PreferredTheme.emit, PreferredTheme.mediaChangeEvent,
      PreferredTheme.storageEvent, PreferredLanguage.setLanguage, PreferredLanguage.emit,
      PreferredLanguage.languageChangeEvent, PreferredLanguage.storageEvent, h]

/-- Witness for C10: a listener present in each store's set is invoked by each
publishing operation, at a concrete store state. -/
theorem stores_invoke_every_listener_witness :
    (5 ∈ (PreferredTheme.setTheme (some "dark")
      { listeners := [5], mediaChangeListeners := 1, storageListeners := 0,
        storageValue := none, callLog := [] }).callLog) ∧
    (5 ∈ (PreferredLanguage.setLanguage "es"
      { listeners := [5], languageChangeListeners := 1, storageListeners := 0,
        storageValue := none, callLog := [] }).callLog) := by
  constructor
  · exact (stores_invoke_every_listener
      { listeners := [5], mediaChangeListeners := 1, storageListeners := 0,
        storageValue := none, callLog := [] }
      { listeners := [], languageChangeListeners := 0, storageListeners := 0,
        storageValue := none, callLog := [] } 5 (some "dark") "es").1 (by decide)
  · exact (stores_invoke_every_listener
      { listeners := [], mediaChangeListeners := 0, storageListeners := 0,
        storageValue := none, callLog := [] }
      { listeners := [5], languageChangeListeners := 1, storageListeners := 0,
        storageValue := none, callLog := [] } 5 (some "dark") "es").2.2.2.1 (by decide)

/-- C8: counterexample at `maxExecutions = 0`.  Starting an interval with
`executeImmediately` and a configured limit of 0 immediately invokes the
callback once and sets the execution count to 1, exceeding the limit. -/
theorem interval_maxExecutions_zero_exceeded :
    (UseIntervalSafe.run
      { delay := some 5, executeImmediately := true, maxExecutions := some 0 }
      [.start]).executions = 1 ∧
    (UseIntervalSafe.run
      { delay := some 5, executeImmediately := true, maxExecutions := some 0 }
      [.start]).invocations = 1 ∧
    ¬((UseIntervalSafe.run
      { delay := some 5, executeImmediately := true, maxExecutions := some 0 }
      [.start]).executions ≤ 0) := by
  refine ⟨rfl, rfl, ?_⟩
  decide

namespace UseIntervalSafe

theorem cancel_timer_false (s : IntervalState) : (cancel s).timer = false := by
  unfold cancel
  split <;> simp_all

theorem cancel_isActive_false {s : IntervalState} (h : s.timer = s.isActive) :
    (cancel s).isActive = false := by
  unfold cancel
  split <;> simp_all

theorem inv_cancel {m : Nat} {s : IntervalState} (h : Inv m s) : Inv m (cancel s) := by
  obtain ⟨h1, h2, h3, h4⟩ := h
  unfold cancel
  split
  · exact ⟨h1, h2, by simp, rfl⟩
  · exact ⟨h1, h2, h3, h4⟩

theorem cancel_executions (s : IntervalState) : (cancel s).executions = s.executions := by
  unfold cancel; split <;> rfl

theorem cancel_invocations (s : IntervalState) : (cancel s).invocations = s.invocations := by
  unfold cancel; split <;> rfl

theorem inv_start {cfg : IntervalConfig} {m : Nat} (hm : cfg.maxExecutions = some m)
    (hpos : 1 ≤ m) {s : IntervalState} (h : Inv m s) : Inv m (start cfg s) := by
  have hc := inv_cancel h
  have hct := cancel_timer_false s
  have hca := cancel_isActive_false h.2.2.2
  unfold start
  rcases hdel : cfg.delay with _ | d
  · exact hc
  · by_cases him : cfg.executeImmediately = true
    · rw [him]
      simp only [if_true]
      by_cases hm1 : m = 1
      · rw [hm, hm1]
        rw [if_pos rfl]
        unfold Inv
        dsimp only
        refine ⟨le_rfl, by omega, fun hT => ?_, hc.2.2.2⟩
        rw [hct] at hT
        simp at hT
      · rw [hm]
        rw [if_neg (by simp [hm1] : ¬((some m : Option Nat) = some 1))]
        unfold Inv
        dsimp only
        exact ⟨le_rfl, hpos, fun _ => by omega, rfl⟩
    · have him2 : cfg.executeImmediately = false := by simp_all
      rw [him2]
      simp only [Bool.false_eq_true, if_false]
      unfold Inv
      dsimp only
      exact ⟨le_rfl, Nat.zero_le m, fun _ => hpos, rfl⟩

theorem inv_tick {cfg : IntervalConfig} {m : Nat} (hm : cfg.maxExecutions = some m)
    {s : IntervalState} (h : Inv m s) : Inv m (tickStep cfg s) := by
  obtain ⟨h1, h2, h3, h4⟩ := h
  unfold tickStep
  by_cases ht : s.timer = true
  · have hlt := h3 ht
    have hct := cancel_timer_false s
    have hca := cancel_isActive_false h4
    rw [ht]
    simp only [Bool.not_true, Bool.false_eq_true, if_false]
    rw [hm]
    dsimp only
    by_cases hge : m ≤ s.executions + 1
    · rw [if_pos hge]
      unfold Inv
      dsimp only
      refine ⟨?_, by omega, fun hT => ?_, ?_⟩
      · rw [cancel_invocations]
        omega
      · rw [hct] at hT
        simp at hT
      · rw [hct, hca]
    · rw [if_neg hge]
      unfold Inv
      dsimp only
      exact ⟨by omega, by omega, fun _ => by omega, by rw [← ht]; exact h4⟩
  · have ht2 : s.timer = false := by simp_all
    rw [ht2]
    simp only [Bool.not_false, if_true]
    exact ⟨h1, h2, h3, h4⟩

theorem inv_step {cfg : IntervalConfig} {m : Nat} (hm : cfg.maxExecutions = some m)
    (hpos : 1 ≤ m) {s : IntervalState} (h : Inv m s) :
    ∀ e, Inv m (step cfg s e)
  | .start => inv_start hm hpos h
  | .tick => inv_tick hm h
  | .cancel => inv_cancel h
  | .reset => by
    unfold step resetStep
    refine inv_start hm hpos ⟨?_, ?_, ?_, ?_⟩
    · exact le_rfl
    · exact Nat.zero_le m
    · dsimp only
      intro hT
      rw [cancel_timer_false] at hT
      simp at hT
    · dsimp only
      rw [cancel_timer_false, cancel_isActive_false h.2.2.2]

end UseIntervalSafe

/-- C8 (amended: for a defined execution limit `maxExecutions = m` with
`m ≥ 1`): in every state reachable by any sequence of `start`, interval-tick,
`cancel` and `reset` steps, `executionCount` never exceeds `m`, the number of
callback invocations (since the count was last reset) never exceeds the
execution count and hence never exceeds `m`, and whenever the count has
reached `m` the interval is cancelled (`isActive` is false and the timer is
cleared, since a live timer forces the count strictly below `m`). -/
theorem interval_maxExecutions_invariant (cfg : UseIntervalSafe.IntervalConfig)
    (m : Nat) (events : List UseIntervalSafe.IntervalEvent)
    (hm : cfg.maxExecutions = some m) (hpos : 1 ≤ m) :
    UseIntervalSafe.Inv m (UseIntervalSafe.run cfg events) := by
  unfold UseIntervalSafe.run
  have hinit : UseIntervalSafe.Inv m UseIntervalSafe.initState :=
    ⟨le_rfl, Nat.zero_le m, fun h => by simp [UseIntervalSafe.initState] at h, rfl⟩
  induction events generalizing cfg with
  | nil => exact hinit
  | cons e rest ih =>
    suffices hstep : ∀ (l : List UseIntervalSafe.IntervalEvent)
        (s : UseIntervalSafe.IntervalState), UseIntervalSafe.Inv m s →
        UseIntervalSafe.Inv m (List.foldl (UseIntervalSafe.step cfg) s l) by
      exact hstep _ _ hinit
    intro l
    induction l with
    | nil => exact fun s hs => hs
    | cons e2 rest2 ih2 =>
      exact fun s hs => ih2 _ (UseIntervalSafe.inv_step hm hpos hs e2)

/-- Witness for C8 at a concrete configuration and event sequence. -/
theorem interval_maxExecutions_invariant_witness :
    ({ delay := some 5, executeImmediately := false, maxExecutions := some 2 } :
      UseIntervalSafe.IntervalConfig).maxExecutions = some 2 ∧ 1 ≤ 2 ∧
    UseIntervalSafe.Inv 2 (UseIntervalSafe.run
      { delay := some 5, executeImmediately := false, maxExecutions := some 2 }
      [.start, .tick, .tick]) :=
  ⟨rfl, by decide,
    interval_maxExecutions_invariant _ 2 [.start, .tick, .tick] rfl (by decide)⟩

namespace UseDebouncedState

theorem debInv_init {T : Type} (delay : Int) (initialValue : T) (t0 : Int) :
    DebInv delay (initState delay initialValue t0) := by
  intro tf v h
  dsimp [initState] at h ⊢
  simp only [Option.some.injEq, Prod.mk.injEq] at h
  exact ⟨h.1.symm, h.2.symm⟩

theorem debInv_step {T : Type} (delay : Int) (s : DebState T) (h : DebInv delay s)
    (e : DebEvent T) : DebInv delay (step delay s e) := by
  intro tf v hp
  cases e with
  | setValue t w =>
    dsimp [step] at hp ⊢
    simp only [Option.some.injEq, Prod.mk.injEq] at hp
    exact ⟨hp.1.symm, hp.2.symm⟩
  | fire t =>
    rcases hsp : s.pending with _ | ⟨tf0, v0⟩
    · have hid : step delay s (.fire t) = s := by
        unfold step; rw [hsp]
      rw [hid] at hp ⊢
      exact h tf v hp
    · have hstep : step delay s (.fire t) =
          if t = tf0 then { s with debouncedValue := v0, pending := none } else s := by
        unfold step; rw [hsp]
      by_cases hteq : t = tf0
      · rw [hstep, if_pos hteq] at hp
        dsimp at hp
        exact absurd hp (by simp)
      · rw [hstep, if_neg hteq] at hp ⊢
        exact h tf v hp

theorem debInv_run {T : Type} (delay : Int) (initialValue : T) (t0 : Int)
    (events : List (DebEvent T)) : DebInv delay (run delay initialValue t0 events) := by
  unfold run
  suffices hgen : ∀ (l : List (DebEvent T)) (s : DebState T), DebInv delay s →
      DebInv delay (List.foldl (step delay) s l) from
    hgen events _ (debInv_init delay initialValue t0)
  intro l
  induction l with
  | nil => exact fun s hs => hs
  | cons e rest ih => exact fun s hs => ih _ (debInv_step delay s hs e)

end UseDebouncedState

/-- C4: in any reachable state of `useDebouncedState`, a step changes the
debounced value only if it is the pending timeout firing exactly `delay` after
the most recent change to the immediate value, and the new debounced value is
then the immediate value; in particular at every instant strictly before
`lastSet + delay` the debounced value still holds its previous value. -/
theorem debounced_change_only_after_delay {T : Type} (delay : Int)
    (initialValue : T) (t0 : Int) (events : List (UseDebouncedState.DebEvent T))
    (e : UseDebouncedState.DebEvent T)
    (hchange :
      (UseDebouncedState.step delay (UseDebouncedState.run delay initialValue t0 events)
          e).debouncedValue ≠
        (UseDebouncedState.run delay initialValue t0 events).debouncedValue) :
    ∃ t, e = UseDebouncedState.DebEvent.fire t ∧
      t = (UseDebouncedState.run delay initialValue t0 events).lastSet + delay ∧
      (UseDebouncedState.step delay (UseDebouncedState.run delay initialValue t0 events)
          e).debouncedValue =
        (UseDebouncedState.run delay initialValue t0 events).value := by
  set s := UseDebouncedState.run delay initialValue t0 events with hs
  have hinv := UseDebouncedState.debInv_run delay initialValue t0 events
  rw [← hs] at hinv
  cases e with
  | setValue t v => exact absurd rfl hchange
  | fire t =>
    rcases hsp : s.pending with _ | ⟨tf, v⟩
    · have hid : UseDebouncedState.step delay s (.fire t) = s := by
        unfold UseDebouncedState.step; rw [hsp]
      rw [hid] at hchange
      exact absurd rfl hchange
    · obtain ⟨htf, hv⟩ := hinv tf v hsp
      have hstep : UseDebouncedState.step delay s (.fire t) =
          if t = tf then { s with debouncedValue := v, pending := none } else s := by
        unfold UseDebouncedState.step; rw [hsp]
      by_cases hteq : t = tf
      · refine ⟨t, rfl, ?_, ?_⟩
        · rw [hteq, htf]
        · rw [hstep, if_pos hteq]
          dsimp
          exact hv
      · rw [hstep, if_neg hteq] at hchange
        exact absurd rfl hchange

/-- Witness for C4: with delay 5, after `setValue 7` at time 10, the fire at
time 15 changes the debounced value, is exactly `lastSet + delay`, and makes
the debounced value the immediate value. -/
theorem debounced_change_only_after_delay_witness :
    ((UseDebouncedState.step 5 (UseDebouncedState.run 5 (0 : Int) 0 [.setValue 10 7])
        (.fire 15)).debouncedValue ≠
      (UseDebouncedState.run 5 (0 : Int) 0 [.setValue 10 7]).debouncedValue) ∧
    (∃ t, (UseDebouncedState.DebEvent.fire 15 : UseDebouncedState.DebEvent Int) =
        UseDebouncedState.DebEvent.fire t ∧
      t = (UseDebouncedState.run 5 (0 : Int) 0 [.setValue 10 7]).lastSet + 5 ∧
      (UseDebouncedState.step 5 (UseDebouncedState.run 5 (0 : Int) 0 [.setValue 10 7])
          (.fire 15)).debouncedValue =
        (UseDebouncedState.run 5 (0 : Int) 0 [.setValue 10 7]).value) :=
  ⟨by decide,
    debounced_change_only_after_delay 5 0 0 [.setValue 10 7] (.fire 15) (by decide)⟩

namespace UseCountDown

theorem rem_pos {endTime t : Int} (h : t < endTime) : 0 < rem endTime t := by
  simp only [rem, lt_max_iff]
  left
  omega

theorem rem_eq_zero {endTime t : Int} (h : endTime ≤ t) : rem endTime t = 0 := by
  simp only [rem]
  exact max_eq_right (by omega)

theorem rem_antitone {endTime t u : Int} (h : t ≤ u) : rem endTime u ≤ rem endTime t :=
  max_le_max (by omega) le_rfl

theorem tickCore_count (endTime t : Int) (s : CDState) :
    (tickCore endTime t s).count = rem endTime t := by
  unfold tickCore
  dsimp only
  split <;> rfl

theorem step_rerun_early {endTime u : Int} (h : u < endTime) (s : CDState) :
    step endTime s (.rerun u) =
      { s with count := rem endTime u, completed := false, timer := true } := by
  have hrem := rem_pos h
  simp only [step]
  unfold tickCore
  dsimp only
  rw [if_neg (by intro hand; exact absurd hand.1 (by omega))]

theorem step_tick_early {endTime u : Int} (h : u < endTime) {s : CDState}
    (ht : s.timer = true) :
    step endTime s (.tick u) = { s with count := rem endTime u } := by
  have hrem := rem_pos h
  simp only [step]
  rw [ht]
  simp only [if_true]
  unfold tickCore
  dsimp only
  rw [if_neg (by intro hand; exact absurd hand.1 (by omega)), ht]

theorem step_tick_complete {endTime u : Int} (h : endTime ≤ u) {s : CDState}
    (ht : s.timer = true) (hc : s.completed = false) :
    step endTime s (.tick u) =
      { count := 0, completed := true, timer := false, fired := s.fired + 1 } := by
  simp only [step]
  rw [ht]
  simp only [if_true]
  unfold tickCore
  dsimp only
  rw [rem_eq_zero h, hc]
  rw [if_pos ⟨rfl, rfl⟩]

theorem step_tick_noTimer {endTime u : Int} {s : CDState} (ht : s.timer = false) :
    step endTime s (.tick u) = s := by
  simp only [step]
  rw [ht]
  simp

theorem step_count_cases (endTime : Int) (s : CDState) (e : CDEvent) :
    (step endTime s e).count = rem endTime (evTime e) ∨ step endTime s e = s := by
  cases e with
  | tick u =>
    by_cases ht : s.timer = true
    · left
      simp only [step]
      rw [ht]
      simp only [if_true]
      exact tickCore_count endTime u s
    · right
      exact step_tick_noTimer (by simp_all)
  | rerun u =>
    left
    simp only [step]
    exact tickCore_count endTime u _

theorem counts_chain (endTime : Int) :
    ∀ (events : List CDEvent) (s : CDState) (t : Int),
      List.Chain (· ≤ ·) t (List.map evTime events) →
      rem endTime t ≤ s.count →
      List.Chain (fun a b => b ≤ a) s.count
        (List.map CDState.count (statesAfter endTime s events)) := by
  intro events
  induction events with
  | nil => intro s t _ _; exact List.Chain.nil
  | cons e rest ih =>
    intro s t hchain hcount
    rw [List.map_cons] at hchain
    cases hchain with
    | cons h1 h2 =>
      show List.Chain _ s.count (List.map CDState.count
        (step endTime s e :: statesAfter endTime (step endTime s e) rest))
      rw [List.map_cons]
      rcases step_count_cases endTime s e with hc | hc
      · apply List.Chain.cons
        · rw [hc]
          exact le_trans (rem_antitone h1) hcount
        · apply ih (step endTime s e) (evTime e) h2
          rw [hc]
      · apply List.Chain.cons
        · rw [hc]
        · apply ih (step endTime s e) (evTime e) h2
          rw [hc]
          exact le_trans (rem_antitone h1) hcount

theorem phaseB_steps (endTime : Int) :
    ∀ (events : List CDEvent) (s : CDState) (t : Int),
      PhaseB s → endTime ≤ t →
      List.Chain (· ≤ ·) t (List.map evTime events) →
      (∀ u, CDEvent.rerun u ∈ events → u < endTime) →
      PhaseB (List.foldl (step endTime) s events) := by
  intro events
  induction events with
  | nil => intro s t hB _ _ _; exact hB
  | cons e rest ih =>
    intro s t hB hte hchain hrerun
    rw [List.map_cons] at hchain
    cases hchain with
    | cons h1 h2 =>
      cases e with
      | tick u =>
        rw [List.foldl_cons, step_tick_noTimer hB.2.2.1]
        exact ih s u hB (le_trans hte h1) h2
          (fun w hw => hrerun w (List.mem_cons_of_mem _ hw))
      | rerun u =>
        exact absurd (hrerun u (List.mem_cons_self _ _))
          (not_lt.mpr (le_trans hte h1))

theorem phaseA_steps (endTime : Int) :
    ∀ (events : List CDEvent) (s : CDState) (t : Int),
      PhaseA s →
      List.Chain (· ≤ ·) t (List.map evTime events) →
      (∀ u, CDEvent.rerun u ∈ events → u < endTime) →
      (∃ u, CDEvent.tick u ∈ events ∧ endTime ≤ u) →
      PhaseB (List.foldl (step endTime) s events) := by
  intro events
  induction events with
  | nil =>
    intro s t _ _ _ hex
    obtain ⟨u, hu, _⟩ := hex
    exact absurd hu (List.not_mem_nil _)
  | cons e rest ih =>
    intro s t hA hchain hrerun hex
    rw [List.map_cons] at hchain
    cases hchain with
    | cons h1 h2 =>
      obtain ⟨hf, hcmp, ht⟩ := hA
      cases e with
      | tick u =>
        by_cases hu : endTime ≤ u
        · rw [List.foldl_cons, step_tick_complete hu ht hcmp]
          exact phaseB_steps endTime rest _ u ⟨by rw [hf], rfl, rfl, rfl⟩ hu h2
            (fun w hw => hrerun w (List.mem_cons_of_mem _ hw))
        · rw [List.foldl_cons, step_tick_early (by omega) ht]
          apply ih { s with count := rem endTime u } u ⟨hf, hcmp, ht⟩ h2
            (fun w hw => hrerun w (List.mem_cons_of_mem _ hw))
          obtain ⟨w, hw, hwe⟩ := hex
          rcases List.mem_cons.mp hw with heq | hmem
          · cases heq
            exact absurd hwe hu
          · exact ⟨w, hmem, hwe⟩
      | rerun u =>
        have hlt := hrerun u (List.mem_cons_self _ _)
        rw [List.foldl_cons, step_rerun_early hlt]
        apply ih { s with count := rem endTime u, completed := false, timer := true } u
          ⟨hf, rfl, rfl⟩ h2 (fun w hw => hrerun w (List.mem_cons_of_mem _ hw))
        obtain ⟨w, hw, hwe⟩ := hex
        rcases List.mem_cons.mp hw with heq | hmem
        · cases heq
        · exact ⟨w, hmem, hwe⟩

end UseCountDown

/-- C2: counterexample.  With `endTime = 100`, mounting at time 0, the
interval tick at time 100 completes the countdown and invokes `onComplete`;
an effect re-run at time 101 (e.g. caused by a re-render with a referentially
new `options` object) resets `completedRef` and runs `tick` inline, invoking
`onComplete` a second time — so over this control-free run the callback fires
twice, not exactly once. -/
theorem countdown_onComplete_fires_twice :
    (UseCountDown.run 100 0 [.rerun 0, .tick 100, .rerun 101]).fired = 2 ∧
    ¬((UseCountDown.run 100 0 [.rerun 0, .tick 100, .rerun 101]).fired ≤ 1) := by
  refine ⟨?_, ?_⟩ <;> decide

/-- C2 (amended: for runs mounted before the end time in which no control
function is invoked and the effect does not re-run at or after the end time):
`onComplete` is invoked exactly once (given that some interval tick occurs at
or after the end time), the final `count` is 0, and the sequence of `count`
values over the run is non-increasing. -/
theorem countdown_monotone_completes_once (endTime t0 : Int)
    (rest : List UseCountDown.CDEvent)
    (hchain : List.Chain (· ≤ ·) t0
      (List.map UseCountDown.evTime (UseCountDown.CDEvent.rerun t0 :: rest)))
    (hrerun : ∀ u, UseCountDown.CDEvent.rerun u ∈
      UseCountDown.CDEvent.rerun t0 :: rest → u < endTime)
    (htick : ∃ u, UseCountDown.CDEvent.tick u ∈ rest ∧ endTime ≤ u) :
    (UseCountDown.run endTime t0 (UseCountDown.CDEvent.rerun t0 :: rest)).fired = 1 ∧
    (UseCountDown.run endTime t0 (UseCountDown.CDEvent.rerun t0 :: rest)).count = 0 ∧
    List.Chain (fun a b => b ≤ a) (UseCountDown.initState endTime t0).count
      (List.map UseCountDown.CDState.count
        (UseCountDown.statesAfter endTime (UseCountDown.initState endTime t0)
          (UseCountDown.CDEvent.rerun t0 :: rest))) := by
  have ht0 : t0 < endTime := hrerun t0 (List.mem_cons_self _ _)
  have hmono : List.Chain (fun a b => b ≤ a) (UseCountDown.initState endTime t0).count
      (List.map UseCountDown.CDState.count
        (UseCountDown.statesAfter endTime (UseCountDown.initState endTime t0)
          (UseCountDown.CDEvent.rerun t0 :: rest))) :=
    UseCountDown.counts_chain endTime _ _ t0 hchain le_rfl
  rw [List.map_cons] at hchain
  cases hchain with
  | cons h1 h2 =>
    have hB : UseCountDown.PhaseB
        (UseCountDown.run endTime t0 (UseCountDown.CDEvent.rerun t0 :: rest)) := by
      unfold UseCountDown.run
      rw [List.foldl_cons, UseCountDown.step_rerun_early ht0]
      exact UseCountDown.phaseA_steps endTime rest _ t0 ⟨rfl, rfl, rfl⟩ h2
        (fun w hw => hrerun w (List.mem_cons_of_mem _ hw)) htick
    exact ⟨hB.1, hB.2.2.2, hmono⟩

/-- Witness for C2 at a concrete run: end time 10, mount at 0, one tick at
time 10. -/
theorem countdown_monotone_completes_once_witness :
    (UseCountDown.run 10 0 [.rerun 0, .tick 10]).fired = 1 ∧
    (UseCountDown.run 10 0 [.rerun 0, .tick 10]).count = 0 ∧
    List.Chain (fun a b => b ≤ a) (UseCountDown.initState 10 0).count
      (List.map UseCountDown.CDState.count
        (UseCountDown.statesAfter 10 (UseCountDown.initState 10 0)
          [.rerun 0, .tick 10])) :=
  countdown_monotone_completes_once 10 0 [.tick 10]
    (List.Chain.cons (by decide) (List.Chain.cons (by decide) List.Chain.nil))
    (by
      intro u hu
      rcases List.mem_cons.mp hu with heq | hmem
      · cases heq
        omega
      · rcases List.mem_cons.mp hmem with heq2 | hmem2
        · cases heq2
        · exact absurd hmem2 (List.not_mem_nil _))
    ⟨10, by decide, by decide⟩
